import Mathlib

/-!
Verification of the rate-limiter decision engines against their
natural-language specification.

Shallow embedding conventions:
* Go `time.Time` / `time.Duration` values are integers: nanoseconds for the
  in-memory limiters (Go durations are int64 nanoseconds), milliseconds for
  the Redis/Memcached paths (the Go wrappers pass `UnixMilli` into scripts).
* Go `float64` arithmetic (bucket levels, sliding-window weights) is modelled
  with exact rationals `ℚ`.
* Fallible paths return `Except`; a cancelled context is an explicit boolean.
* Each `Allow` is a pure state transition `state → now → verdict × state`;
  a limiter run is a fold of that transition over a list of call times.
* A remote write is modelled as the written value paired with the expiry the
  code attaches to it (`none` when the write carries no expiry).
-/

namespace RateLimiter

/-! ## Fixed Window Counter, in-memory
    (src/internal/fixedcounter/inmemory/limiter.go) -/

/-- Per-identifier state of the in-memory fixed-window counter:
`Count` and `WindowEnd` of `CounterState`.  Times are nanoseconds. -/
structure CounterState where
  count : Int
  windowEnd : Int
  deriving Repr, DecidableEq

/-- Zero value of `CounterState`, as produced by `LoadOrStore(identifier,
&CounterState{})` on first sight of an identifier. -/
def CounterState.init : CounterState := ⟨0, 0⟩

/-- `Limiter.Allow` of the in-memory fixed-window counter.  The mutex and
logging are elided; the context-cancellation check happens after taking the
lock and before the window reset, exactly as in the source.  `now.After(we)`
is the strict comparison `we < now`. -/
def fcAllow (window limit : Int) (ctxCancelled : Bool) (s : CounterState)
    (now : Int) : Except Unit Bool × CounterState :=
  if ctxCancelled then (Except.error (), s)
  else
    let s1 : CounterState :=
      if s.windowEnd < now then ⟨0, now + window⟩ else s
    if s1.count < limit then (Except.ok true, ⟨s1.count + 1, s1.windowEnd⟩)
    else (Except.ok false, s1)

/-- Folding `fcAllow` over a list of call times (single identifier,
no cancellation). -/
def fcRun (window limit : Int) (s : CounterState) : List Int → CounterState
  | [] => s
  | t :: ts => fcRun window limit (fcAllow window limit false s t).2 ts

/-! ## Fixed Window Counter, Redis Lua script
    (src/internal/fixedcounter/redis/script.go) -/

/-- The fixed-window Lua script.  The per-identifier hash maps window-start
fields to counts (modelled as `Int → Int`, zero default like `HINCRBY` on a
missing field).  Returns the verdict, the updated hash, and the expiry the
script attaches (`EXPIRE expiry` only when the incremented count is 1). -/
def fcRedisScript (window limit expiry : Int) (hash : Int → Int)
    (now : Int) : Bool × (Int → Int) × Option Int :=
  let windowStart := (Int.fdiv now window) * window
  let count := hash windowStart + 1
  let ttl : Option Int := if count = 1 then some expiry else none
  (count ≤ limit, fun f => if f = windowStart then count else hash f, ttl)

/-! ## Leaky Bucket, in-memory
    (src/internal/leakybucket/inmemory/limiter.go)

The in-memory leaky bucket `limiter` struct holds a single
`(currentLevel, lastLeak)` pair directly on the limiter; there is no map from
identifiers to buckets.  `Allow` receives `ctx` and `identifier` but its body
never reads either, and it always returns a nil error.  Times are
nanoseconds; `elapsed.Seconds()` divides by 1e9. -/

/-- Bucket state: `currentLevel` (Go float64, modelled as `ℚ`) and
`lastLeak` (nanoseconds). -/
structure LBState where
  currentLevel : ℚ
  lastLeak : Int
  deriving Repr, DecidableEq

/-- State created by `NewLimiter`: the bucket starts empty. -/
def LBState.init (now : Int) : LBState := ⟨0, now⟩

/-- `limiter.Allow` of the in-memory leaky bucket: leak since `lastLeak`
(clamped at 0), then admit iff `currentLevel + 1 ≤ capacity`.  The
`ctxCancelled` and `identifier` arguments mirror the Go parameters, which
the body ignores — there is no cancellation check and no per-identifier
lookup in the source. -/
def lbAllow (rate capacity : Int) (ctxCancelled : Bool) (identifier : String)
    (s : LBState) (now : Int) : Except Unit Bool × LBState :=
  let _ := ctxCancelled
  let _ := identifier
  let elapsedSeconds : ℚ := ((now : ℚ) - (s.lastLeak : ℚ)) / 1000000000
  let leakedAmount : ℚ := elapsedSeconds * (rate : ℚ)
  let level1 : ℚ := max 0 (s.currentLevel - leakedAmount)
  if level1 + 1 ≤ (capacity : ℚ) then (Except.ok true, ⟨level1 + 1, now⟩)
  else (Except.ok false, ⟨level1, now⟩)

/-- Folding `lbAllow` over successive call times (fixed identifier, live
context). -/
def lbRun (rate capacity : Int) (s : LBState) : List Int → LBState
  | [] => s
  | t :: ts => lbRun rate capacity (lbAllow rate capacity false "u1" s t).2 ts

/-- A run of the whole in-memory leaky bucket limiter over labelled calls
`(identifier, now)`: every call, whatever its identifier, reads and writes
the one shared bucket (this is exactly what the source does). -/
def lbLimiterRun (rate capacity : Int) (s : LBState) :
    List (String × Int) → List (String × Bool) × LBState
  | [] => ([], s)
  | (id, t) :: evs =>
    let r := lbAllow rate capacity false id s t
    let v := match r.1 with
      | Except.ok b => b
      | Except.error _ => false
    let rest := lbLimiterRun rate capacity r.2 evs
    ((id, v) :: rest.1, rest.2)

/-- The sub-sequence of verdicts belonging to one identifier. -/
def verdictsFor (a : String) (out : List (String × Bool)) : List Bool :=
  (out.filter (fun p => p.1 == a)).map (fun p => p.2)

/-! ## Leaky Bucket, Redis Lua script
    (src/internal/leakybucket/redis/limiter.go, `leakyBucketLuaScript`)

Times are milliseconds.  The script always writes the new state back with a
plain `SET`; the `Option Int` component is the expiry attached to that
write — `none`, because the script never calls `EXPIRE`/`PEXPIRE` and `SET`
without options carries no TTL. -/

/-- The leaky-bucket Lua script: decode `{currentLevel, lastLeak}` (a
missing key means level 0 and `lastLeak = now`), leak, decide, and write
back unconditionally with no expiry. -/
def lbRedisScript (capacity rate : Int) (st : Option LBState) (now : Int) :
    Bool × LBState × Option Int :=
  let s0 : LBState := match st with
    | none => ⟨0, now⟩
    | some s => s
  let elapsed : ℚ := ((now : ℚ) - (s0.lastLeak : ℚ)) / 1000
  let leakedAmount : ℚ := elapsed * (rate : ℚ)
  let level1 : ℚ := max 0 (s0.currentLevel - leakedAmount)
  if level1 + 1 ≤ (capacity : ℚ) then (true, ⟨level1 + 1, now⟩, none)
  else (false, ⟨level1, now⟩, none)

/-! ## Token Bucket, in-memory
    (src/internal/tokenbucket/tokenbucket.go, package tbinmemory) -/

/-- Per-identifier bucket: integer `tokens` and `lastRefill` (nanoseconds).
The Go struct also carries `capacity`, which always equals the limiter's
capacity and is kept as a parameter here. -/
structure TBState where
  tokens : Int
  lastRefill : Int
  deriving Repr, DecidableEq

/-- Bucket created on first sight of an identifier: full, with
`lastRefill = now`. -/
def TBState.init (capacity now : Int) : TBState := ⟨capacity, now⟩

/-- `limiter.Allow` of the in-memory token bucket.
`numTokensAdded = int(math.Floor(elapsed.Seconds() * rate))` is the exact
floor `⌊Δns · rate / 1e9⌋`; the bucket is updated (and `lastRefill` moved)
only when that floor is positive.  The context check happens after the
refill, before the decision, as in the source. -/
def tbAllow (rate capacity : Int) (ctxCancelled : Bool) (s : TBState)
    (now : Int) : Except Unit Bool × TBState :=
  let numTokensAdded : Int := Int.fdiv ((now - s.lastRefill) * rate) 1000000000
  let s1 : TBState :=
    if 0 < numTokensAdded then ⟨min capacity (s.tokens + numTokensAdded), now⟩
    else s
  if ctxCancelled then (Except.error (), s1)
  else if 0 < s1.tokens then (Except.ok true, ⟨s1.tokens - 1, s1.lastRefill⟩)
  else (Except.ok false, s1)

/-- Verdicts of successive `tbAllow` calls on one bucket (live context). -/
def tbRunVerdicts (rate capacity : Int) (s : TBState) : List Int → List Bool
  | [] => []
  | t :: ts =>
    let r := tbAllow rate capacity false s t
    let v := match r.1 with
      | Except.ok b => b
      | Except.error _ => false
    v :: tbRunVerdicts rate capacity r.2 ts

/-- Modelled from the claim wording (C3), for comparison with `tbAllow`:
real-valued tokens, refill `tokens := min(capacity, tokens + Δ·rate)` with
`Δ = max(0, now − last_refill)` in seconds, `last_refill := now` on every
call, allow and consume one token iff `tokens ≥ 1`. -/
structure TBSpecState where
  tokens : ℚ
  lastRefill : Int
  deriving Repr, DecidableEq

/-- The claim-side token-bucket step (see `TBSpecState`). -/
def tbSpecAllow (rate capacity : Int) (s : TBSpecState) (now : Int) :
    Bool × TBSpecState :=
  let delta : ℚ := max 0 (((now : ℚ) - (s.lastRefill : ℚ)) / 1000000000)
  let tokens : ℚ := min (capacity : ℚ) (s.tokens + delta * (rate : ℚ))
  if 1 ≤ tokens then (true, ⟨tokens - 1, now⟩) else (false, ⟨tokens, now⟩)

/-- Verdicts of successive claim-side steps. -/
def tbSpecRunVerdicts (rate capacity : Int) (s : TBSpecState) :
    List Int → List Bool
  | [] => []
  | t :: ts =>
    let r := tbSpecAllow rate capacity s t
    r.1 :: tbSpecRunVerdicts rate capacity r.2 ts

/-! ## Token Bucket, Redis Lua script
    (src/internal/tokenbucket/redis/script.go, `redisAllowScript`)

Times are milliseconds.  The script always writes `{tokens,
last_refill_time}` back and sets `EXPIRE` to `ceil(capacity/rate) · 2`. -/

/-- The token-bucket Lua script: on a missing key start full with
`last_refill_time = now`; otherwise refill by the integer floor
`⌊Δms · rate / 1000⌋` and set `last_refill_time = now` unconditionally;
allow iff `tokens ≥ requested`.  Returns `((allowed, remaining), state,
ttl)`. -/
def tbRedisScript (capacity rate requested : Int) (st : Option TBState)
    (now : Int) : (Bool × Int) × TBState × Int :=
  let ttl : Int := Int.ceil ((capacity : ℚ) / (rate : ℚ)) * 2
  let tokens : Int := match st with
    | none => capacity
    | some s => min capacity (s.tokens + Int.fdiv ((now - s.lastRefill) * rate) 1000)
  if requested ≤ tokens then ((true, tokens - requested), ⟨tokens - requested, now⟩, ttl)
  else ((false, tokens), ⟨tokens, now⟩, ttl)

/-- Folding the Redis token-bucket script over call times, starting from an
existing stored state. -/
def tbRedisRun (capacity rate requested : Int) (s : TBState) :
    List Int → TBState
  | [] => s
  | t :: ts =>
    tbRedisRun capacity rate requested
      (tbRedisScript capacity rate requested (some s) t).2.1 ts

/-- Call times each strictly less than one refill quantum after the
previous instant: every consecutive gap `g` satisfies `0 ≤ g` and
`g · rate < 1000` (milliseconds), i.e. the calls are spaced less than
`1/rate` seconds apart. -/
def closelySpaced (rate : Int) : Int → List Int → Prop
  | _, [] => True
  | prev, t :: ts => 0 ≤ t - prev ∧ (t - prev) * rate < 1000 ∧ closelySpaced rate t ts

/-! ## Token Bucket, Memcached
    (src/internal/tokenbucket/memcache/limiter.go)

State is JSON `{tokens, last_refill}`; `stored = none` is a cache miss,
`stored = some none` an undecodable value.  The write back (both branches)
uses a `memcache.Item` with no `Expiration` field set, i.e. expiry 0.
`refillAmount = int64(rate · elapsed.Seconds())` truncates toward zero. -/

/-- Error kinds of the memcached token-bucket `Allow`. -/
inductive TBMErr
  | getFailed
  | unmarshalFailed
  | setFailed
  deriving Repr, DecidableEq

/-- `limiter.Allow` of the memcached token bucket.  Returns the verdict and
the successful write `(state, expiry)` if any. -/
def tbMemAllow (rate capacity : Int) (stored : Option (Option TBState))
    (getErr setErr : Bool) (now : Int) :
    Except TBMErr Bool × Option (TBState × Int) :=
  match getErr with
  | true => (Except.error TBMErr.getFailed, none)
  | false =>
    match stored with
    | some none => (Except.error TBMErr.unmarshalFailed, none)
    | st =>
      let s0 : TBState :=
        (st.getD (some (TBState.init capacity now))).getD (TBState.init capacity now)
      let refillAmount : Int := Int.tdiv ((rate) * (now - s0.lastRefill)) 1000000000
      let tokens : Int := min (s0.tokens + refillAmount) capacity
      if 1 ≤ tokens then
        match setErr with
        | true => (Except.error TBMErr.setFailed, none)
        | false => (Except.ok true, some (⟨tokens - 1, now⟩, 0))
      else
        match setErr with
        | true => (Except.error TBMErr.setFailed, none)
        | false => (Except.ok false, some (⟨tokens, now⟩, 0))

/-! ## Sliding Window Counter, in-memory
    (src/internal/slidingwindowcounter/inmemory/limiter.go) -/

/-- Per-identifier state: previous-window count, current-window count,
current window start (nanoseconds). -/
structure SWState where
  pc : Int
  cc : Int
  cws : Int
  deriving Repr, DecidableEq

/-- `limiter.Allow` of the in-memory sliding-window counter: after the
optional window shift (window start truncated to a multiple of the window,
`time.Truncate` rounds down), the decision weighs BOTH counts:
`total = wCurr·cc + (1 − wCurr)·pc` with `wCurr = elapsed/window`,
and allows iff `total < limit`, incrementing `cc` on allow. -/
def swAllow (window limit : Int) (ctxCancelled : Bool) (s : SWState)
    (now : Int) : Except Unit Bool × SWState :=
  if ctxCancelled then (Except.error (), s)
  else
    let elapsed := now - s.cws
    let s1 : SWState :=
      if window ≤ elapsed then
        if elapsed < 2 * window then ⟨s.cc, 0, now - Int.emod now window⟩
        else ⟨0, 0, now - Int.emod now window⟩
      else s
    let wCurr : ℚ := ((now : ℚ) - (s1.cws : ℚ)) / (window : ℚ)
    let wPrev : ℚ := 1 - wCurr
    let total : ℚ := wCurr * (s1.cc : ℚ) + wPrev * (s1.pc : ℚ)
    if total < (limit : ℚ) then (Except.ok true, ⟨s1.pc, s1.cc + 1, s1.cws⟩)
    else (Except.ok false, s1)

/-! ## Sliding Window Counter, Redis Lua script
    (src/internal/slidingwindowcounter/redis/script.go) -/

/-- The sliding-window Lua script (times in milliseconds).  A missing key
reads as `⟨0, 0, 0⟩`.  The script increments `cc` BEFORE the weighting,
caps `wCurr` at 1 (flooring elapsed at 0), allows iff the weighted total is
`< limit`, and persists (`HMSET` + `PEXPIRE 3·window`) only on allow. -/
def swRedisScript (window limit : Int) (s : SWState) (now : Int) :
    Bool × Option (SWState × Int) :=
  let s1 : SWState :=
    if s.cws = 0 ∨ 2 * window ≤ now - s.cws then
      ⟨0, 1, now - Int.emod now window⟩
    else
      let els := now - s.cws
      let s2 : SWState :=
        if window ≤ els then
          if els < 2 * window then ⟨s.cc, 0, now - Int.emod now window⟩
          else ⟨0, 0, now - Int.emod now window⟩
        else s
      ⟨s2.pc, s2.cc + 1, s2.cws⟩
  let tsw : Int := now - s1.cws
  let tsw2 : Int := if tsw < 0 then 0 else tsw
  let wCurr : ℚ := if 0 < window then min 1 ((tsw2 : ℚ) / (window : ℚ)) else 0
  let wPrev : ℚ := if 0 < window then 1 - wCurr else 0
  let total : ℚ := wCurr * (s1.cc : ℚ) + wPrev * (s1.pc : ℚ)
  if total < (limit : ℚ) then (true, some (s1, 3 * window)) else (false, none)

/-- Modelled from the claim wording (C4), for comparison with `swAllow`:
`wPrev = (window − (now − cws))/window` clamped to `[0,1]`, the current
count unweighted: `estimate = cc + wPrev·pc`; allowed iff
`estimate + 1 ≤ limit`. -/
def swClaimAllow (window limit : Int) (s : SWState) (now : Int) : Bool :=
  let wPrev : ℚ :=
    min 1 (max 0 (((window : ℚ) - ((now : ℚ) - (s.cws : ℚ))) / (window : ℚ)))
  let estimate : ℚ := (s.cc : ℚ) + wPrev * (s.pc : ℚ)
  if estimate + 1 ≤ (limit : ℚ) then true else false

/-! ## Sliding Window log variant, Memcached
    (src/internal/slidingwindowcounter/memcache/limiter.go)

State is JSON `{ timestamps: [...] }` (milliseconds).  `stored = none` is a
cache miss, `some none` an undecodable value.  The code does a plain `Get`,
prunes and sorts, decides by count, and on allow appends `now` and writes
back with a plain `Set` — and when that `Set` fails it logs and still
returns `(true, nil)`. -/

/-- Backend operations the memcached interface offers (`memcacheiface.Client`
has no compare-and-swap); `cas` is included so its absence from every trace
can be stated. -/
inductive MOp
  | get
  | set
  | add
  | incr
  | cas
  deriving Repr, DecidableEq

/-- Error kinds of the memcached sliding-window `Allow`. -/
inductive SWCErr
  | getFailed
  | unmarshalFailed
  deriving Repr, DecidableEq

/-- Insert into a `≤`-sorted list. -/
def insertSorted (x : Int) : List Int → List Int
  | [] => [x]
  | y :: ys => if x ≤ y then x :: y :: ys else y :: insertSorted x ys

/-- Insertion sort, modelling the `sort.Slice` on the pruned timestamps. -/
def insSort : List Int → List Int
  | [] => []
  | x :: xs => insertSorted x (insSort xs)

/-- `Limiter.Allow` of the memcached sliding-window log.  Returns the
verdict, the successful write `(timestamps, expirySeconds)` if any, and the
trace of backend operations issued. -/
def swcMemAllow (window limit : Int) (stored : Option (Option (List Int)))
    (getErr setErr : Bool) (now : Int) :
    Except SWCErr Bool × Option (List Int × Int) × List MOp :=
  let windowStart := now - window
  let expiry0 := Int.tdiv window 1000
  let expiry := if expiry0 < 1 then 1 else expiry0
  match getErr with
  | true => (Except.error SWCErr.getFailed, none, [MOp.get])
  | false =>
    match stored with
    | some none => (Except.error SWCErr.unmarshalFailed, none, [MOp.get])
    | st =>
      let ts : List Int := (st.getD (some [])).getD []
      let valid := insSort (ts.filter (fun t => windowStart ≤ t))
      if valid.length < limit then
        let newTs := valid ++ [now]
        match setErr with
        | true => (Except.ok true, none, [MOp.get, MOp.set])
        | false => (Except.ok true, some (newTs, expiry), [MOp.get, MOp.set])
      else (Except.ok false, none, [MOp.get])

/-! ## Generic per-identifier keyed run

The in-memory fixed-window, token-bucket and sliding-window limiters all
keep a map from identifier to state (`sync.Map` / `map[string]*bucket`)
and mutate only the entry of the identifier being served.  `keyedRun`
captures that shape; `fcStep` and `tbStep` instantiate it. -/

/-- Run a per-identifier step over labelled calls `(identifier, now)`,
with state map `m` (`none` = identifier not seen yet when `S` is an
option type). -/
def keyedRun {S : Type} (step : S → Int → Bool × S) :
    List (String × Int) → (String → S) → List (String × Bool) × (String → S)
  | [], m => ([], m)
  | (id, t) :: evs, m =>
    let r := step (m id) t
    let rest := keyedRun step evs (fun k => if k == id then r.2 else m k)
    ((id, r.1) :: rest.1, rest.2)

/-- Per-identifier step of the in-memory fixed-window limiter:
`LoadOrStore` a zero `CounterState`, then `fcAllow`. -/
def fcStep (window limit : Int) (os : Option CounterState) (t : Int) :
    Bool × Option CounterState :=
  let s := os.getD CounterState.init
  let r := fcAllow window limit false s t
  match r.1 with
  | Except.ok v => (v, some r.2)
  | Except.error _ => (false, some r.2)

/-- Per-identifier step of the in-memory token-bucket limiter: create a
full bucket on first sight, then `tbAllow`. -/
def tbStep (rate capacity : Int) (os : Option TBState) (t : Int) :
    Bool × Option TBState :=
  let s := os.getD (TBState.init capacity t)
  let r := tbAllow rate capacity false s t
  match r.1 with
  | Except.ok v => (v, some r.2)
  | Except.error _ => (false, some r.2)

/-- Non-decreasing call times starting from a given instant. -/
def timesMono : Int → List Int → Prop
  | _, [] => True
  | prev, t :: ts => prev ≤ t ∧ timesMono t ts

/-! ## Theorems -/

theorem fcAllow_count_bounds (window limit : Int) (s : CounterState)
    (now : Int) (h0 : 0 ≤ s.count) (h1 : s.count ≤ limit) (hl : 0 ≤ limit) :
    0 ≤ (fcAllow window limit false s now).2.count ∧
      (fcAllow window limit false s now).2.count ≤ limit := by
  unfold fcAllow
  by_cases hw : s.windowEnd < now
  · by_cases hc : (0 : Int) < limit <;> simp [hw, hc] <;> omega
  · by_cases hc : s.count < limit <;> simp [hw, hc] <;> omega

theorem fcRun_count_bounds (window limit : Int) (s : CounterState)
    (ts : List Int) (h0 : 0 ≤ s.count) (h1 : s.count ≤ limit)
    (hl : 0 ≤ limit) :
    0 ≤ (fcRun window limit s ts).count ∧
      (fcRun window limit s ts).count ≤ limit := by
  induction ts generalizing s with
  | nil => exact ⟨h0, h1⟩
  | cons t ts ih =>
    have hb := fcAllow_count_bounds window limit s t h0 h1 hl
    exact ih _ hb.1 hb.2

/-- C1.  Fixed Window Counter, in-memory variant: on every call with a live
context, if `now` is strictly past the stored window end the state is reset
to count `0` and window end `now + window`; the verdict is `Allowed` iff the
counter after this request's increment is at most `limit`; and along every
run that starts within bounds the stored counter stays in `[0, limit]`
(an over-limit request never inflates the counter). -/
theorem fixedWindow_inmemory_correct (window limit : Int) (s : CounterState)
    (now : Int) (h0 : 0 ≤ s.count) (h1 : s.count ≤ limit) (hl : 0 < limit) :
    (s.windowEnd < now →
        (fcAllow window limit false s now).2.windowEnd = now + window ∧
        (fcAllow window limit false s now).1 = Except.ok true ∧
        (fcAllow window limit false s now).2.count = 1) ∧
    ((fcAllow window limit false s now).1 = Except.ok true ↔
        (if s.windowEnd < now then 0 else s.count) + 1 ≤ limit) ∧
    (0 ≤ (fcAllow window limit false s now).2.count ∧
        (fcAllow window limit false s now).2.count ≤ limit) ∧
    (∀ ts : List Int, 0 ≤ (fcRun window limit s ts).count ∧
        (fcRun window limit s ts).count ≤ limit) := by
  refine ⟨?_, ?_, ?_, fun ts => fcRun_count_bounds window limit s ts h0 h1 (le_of_lt hl)⟩
  · intro hw
    unfold fcAllow
    simp [hw, hl]
  · unfold fcAllow
    by_cases hw : s.windowEnd < now
    · by_cases hc : (0 : Int) < limit <;> simp [hw, hc] <;> omega
    · by_cases hc : s.count < limit <;> simp [hw, hc] <;> omega
  · exact fcAllow_count_bounds window limit s now h0 h1 (le_of_lt hl)

/-- Witness for C1 at a concrete input: window 10, limit 3, a state with
count 2 inside the window, `now` past the window end. -/
theorem fixedWindow_inmemory_correct_witness :
    (fcAllow 10 3 false ⟨2, 5⟩ 7).1 = Except.ok true ∧
      (fcAllow 10 3 false ⟨2, 5⟩ 7).2 = ⟨1, 17⟩ := by
  have h := fixedWindow_inmemory_correct 10 3 ⟨2, 5⟩ 7
    (by decide) (by decide) (by decide)
  refine ⟨(h.1 (by decide)).2.1, ?_⟩
  decide

theorem lbAllow_level_bounds (rate capacity : Int) (s : LBState) (now : Int)
    (hr : 0 ≤ rate) (hc : 0 ≤ capacity) (hs0 : 0 ≤ s.currentLevel)
    (hs1 : s.currentLevel ≤ (capacity : ℚ)) (ht : s.lastLeak ≤ now) :
    0 ≤ (lbAllow rate capacity false "u1" s now).2.currentLevel ∧
      (lbAllow rate capacity false "u1" s now).2.currentLevel ≤ (capacity : ℚ) ∧
      (lbAllow rate capacity false "u1" s now).2.lastLeak = now := by
  have hleak : (0 : ℚ) ≤ ((now : ℚ) - (s.lastLeak : ℚ)) / 1000000000 * (rate : ℚ) := by
    apply mul_nonneg
    · apply div_nonneg
      · exact_mod_cast sub_nonneg.mpr ht
      · norm_num
    · exact_mod_cast hr
  have h0 : (0 : ℚ) ≤ max 0 (s.currentLevel - ((now : ℚ) - (s.lastLeak : ℚ)) / 1000000000 * (rate : ℚ)) :=
    le_max_left _ _
  have h2 : max 0 (s.currentLevel - ((now : ℚ) - (s.lastLeak : ℚ)) / 1000000000 * (rate : ℚ)) ≤ (capacity : ℚ) := by
    apply max_le
    · exact_mod_cast hc
    · linarith
  simp only [lbAllow]
  split
  next hb =>
    dsimp only
    exact ⟨by linarith, by linarith, rfl⟩
  next hb =>
    dsimp only
    exact ⟨h0, h2, rfl⟩

theorem lbRun_level_bounds (rate capacity : Int) (s : LBState) (ts : List Int)
    (hr : 0 ≤ rate) (hc : 0 ≤ capacity) (hs0 : 0 ≤ s.currentLevel)
    (hs1 : s.currentLevel ≤ (capacity : ℚ)) (hts : timesMono s.lastLeak ts) :
    0 ≤ (lbRun rate capacity s ts).currentLevel ∧
      (lbRun rate capacity s ts).currentLevel ≤ (capacity : ℚ) := by
  induction ts generalizing s with
  | nil => exact ⟨hs0, hs1⟩
  | cons t ts ih =>
    obtain ⟨hle, hmono⟩ := hts
    have hb := lbAllow_level_bounds rate capacity s t hr hc hs0 hs1 hle
    have hlast : (lbAllow rate capacity false "u1" s t).2.lastLeak = t := hb.2.2
    exact ih _ hb.1 hb.2.1 (by rw [hlast]; exact hmono)

/-- C5.  Leaky Bucket: the decision admits (adding 1 to the level) iff the
post-leak level plus one is at most `capacity`; a denial leaves the level at
the post-leak value; a new bucket starts at level 0; the leak clamps at 0 by
construction; and along any run with non-decreasing clock from a fresh
bucket, `0 ≤ level ≤ capacity` after every call.  The same decision rule is
proved for the Redis Lua script. -/
theorem leakyBucket_level_invariant (rate capacity : Int) (s : LBState)
    (now t0 : Int) (ts : List Int) (hr : 0 ≤ rate) (hc : 0 ≤ capacity)
    (hs0 : 0 ≤ s.currentLevel) (hs1 : s.currentLevel ≤ (capacity : ℚ))
    (ht : s.lastLeak ≤ now) (hts : timesMono t0 ts) :
    ((lbAllow rate capacity false "u1" s now).1 = Except.ok true ↔
        max 0 (s.currentLevel - ((now : ℚ) - (s.lastLeak : ℚ)) / 1000000000 * (rate : ℚ)) + 1 ≤ (capacity : ℚ)) ∧
    ((lbAllow rate capacity false "u1" s now).1 = Except.ok false →
        (lbAllow rate capacity false "u1" s now).2.currentLevel =
          max 0 (s.currentLevel - ((now : ℚ) - (s.lastLeak : ℚ)) / 1000000000 * (rate : ℚ))) ∧
    (LBState.init t0).currentLevel = 0 ∧
    (0 ≤ (lbAllow rate capacity false "u1" s now).2.currentLevel ∧
        (lbAllow rate capacity false "u1" s now).2.currentLevel ≤ (capacity : ℚ)) ∧
    (0 ≤ (lbRun rate capacity (LBState.init t0) ts).currentLevel ∧
        (lbRun rate capacity (LBState.init t0) ts).currentLevel ≤ (capacity : ℚ)) ∧
    (∀ s2 : LBState,
        (lbRedisScript capacity rate (some s2) now).1 = true ↔
          max 0 (s2.currentLevel - ((now : ℚ) - (s2.lastLeak : ℚ)) / 1000 * (rate : ℚ)) + 1 ≤ (capacity : ℚ)) := by
  refine ⟨?_, ?_, rfl, ?_, ?_, ?_⟩
  · by_cases hb : max 0 (s.currentLevel - ((now : ℚ) - (s.lastLeak : ℚ)) / 1000000000 * (rate : ℚ)) + 1 ≤ (capacity : ℚ) <;>
      simp [lbAllow, hb]
  · by_cases hb : max 0 (s.currentLevel - ((now : ℚ) - (s.lastLeak : ℚ)) / 1000000000 * (rate : ℚ)) + 1 ≤ (capacity : ℚ) <;>
      simp [lbAllow, hb]
  · have hb := lbAllow_level_bounds rate capacity s now hr hc hs0 hs1 ht
    exact ⟨hb.1, hb.2.1⟩
  · exact lbRun_level_bounds rate capacity (LBState.init t0) ts hr hc
      le_rfl (by simp only [LBState.init]; exact_mod_cast hc) hts
  · intro s2
    by_cases hb : max 0 (s2.currentLevel - ((now : ℚ) - (s2.lastLeak : ℚ)) / 1000 * (rate : ℚ)) + 1 ≤ (capacity : ℚ) <;>
      simp [lbRedisScript, hb]

/-- Witness for C5 at concrete input: rate 2, capacity 3, bucket at level 3
one second old, run `[0, 0, 0]` from a fresh bucket. -/
theorem leakyBucket_level_invariant_witness :
    (lbAllow 2 3 false "u1" ⟨3, 0⟩ 1000000000).1 = Except.ok true ∧
      (lbRun 2 3 (LBState.init 0) [0, 0, 0]).currentLevel ≤ (3 : ℚ) := by
  have h := leakyBucket_level_invariant 2 3 ⟨3, 0⟩ 1000000000 0 [0, 0, 0]
    (by decide) (by decide) (by norm_num) (by norm_num) (by decide)
    (by simp [timesMono])
  refine ⟨h.1.mpr (by norm_num), h.2.2.2.2.1.2⟩

theorem verdictsFor_cons (a id : String) (v : Bool) (out : List (String × Bool)) :
    verdictsFor a ((id, v) :: out) =
      if id = a then v :: verdictsFor a out else verdictsFor a out := by
  by_cases h : id = a <;> simp [verdictsFor, List.filter_cons, h]

theorem keyedRun_congr {S : Type} (step : S → Int → Bool × S) (a : String)
    (evs : List (String × Int)) (m m2 : String → S) (h : m a = m2 a) :
    verdictsFor a (keyedRun step evs m).1 =
      verdictsFor a (keyedRun step evs m2).1 := by
  induction evs generalizing m m2 with
  | nil => simp [keyedRun]
  | cons e evs ih =>
    obtain ⟨id, t⟩ := e
    by_cases hid : id = a
    · subst hid
      simp only [keyedRun, verdictsFor_cons, eq_self_iff_true, if_true, h]
      refine congrArg (List.cons _) (ih _ _ ?_)
      simp
    · have hane : a ≠ id := fun hh => hid hh.symm
      simp only [keyedRun, verdictsFor_cons, if_neg hid]
      refine ih _ _ ?_
      simpa [hane] using h

theorem keyedRun_isolation {S : Type} (step : S → Int → Bool × S) (a : String)
    (evs : List (String × Int)) (m : String → S) :
    verdictsFor a (keyedRun step evs m).1 =
      verdictsFor a (keyedRun step (evs.filter (fun e => e.1 == a)) m).1 := by
  induction evs generalizing m with
  | nil => rfl
  | cons e evs ih =>
    obtain ⟨id, t⟩ := e
    by_cases hid : id = a
    · subst hid
      rw [List.filter_cons_of_pos (by simp)]
      simp only [keyedRun, verdictsFor_cons, eq_self_iff_true, if_true]
      exact congrArg (List.cons _) (ih _)
    · have hane : a ≠ id := fun hh => hid hh.symm
      rw [List.filter_cons_of_neg (by simp [hid])]
      simp only [keyedRun, verdictsFor_cons, if_neg hid]
      rw [ih]
      exact keyedRun_congr step a _ _ _ (by simp [hane])

/-- C2 (amended).  Per-identifier isolation holds for the map-keyed
in-memory limiters (fixed-window counter and token bucket shown): in any
interleaved sequence of calls, the verdict sequence of identifier `a` equals
the verdicts of `a`'s calls run in isolation — but NOT for the in-memory
leaky bucket, whose limiter keeps one shared bucket for all identifiers
(see the counterexample). -/
theorem keyed_state_isolation (window limit rate capacity : Int)
    (evs : List (String × Int)) (a : String) :
    (verdictsFor a (keyedRun (fcStep window limit) evs (fun _ => none)).1 =
        verdictsFor a
          (keyedRun (fcStep window limit) (evs.filter (fun e => e.1 == a))
            (fun _ => none)).1) ∧
    (verdictsFor a (keyedRun (tbStep rate capacity) evs (fun _ => none)).1 =
        verdictsFor a
          (keyedRun (tbStep rate capacity) (evs.filter (fun e => e.1 == a))
            (fun _ => none)).1) :=
  ⟨keyedRun_isolation _ a evs _, keyedRun_isolation _ a evs _⟩

/-- Counterexample to C2 as stated: for the in-memory leaky bucket
(rate 0, capacity 1), identifier `A`'s only call is denied when interleaved
after a call by `B`, but allowed when `A`'s calls run in isolation — the
state consulted for `A` was written by `B`. -/
theorem leakyBucket_shared_state_counterexample :
    verdictsFor "A" (lbLimiterRun 0 1 (LBState.init 0) [("B", 0), ("A", 0)]).1 = [false] ∧
    verdictsFor "A" (lbLimiterRun 0 1 (LBState.init 0) [("A", 0)]).1 = [true] := by
  constructor <;>
    norm_num [lbLimiterRun, lbAllow, LBState.init, verdictsFor, List.filter,
      show (("B" : String) == "A") = false from by decide,
      show (("A" : String) == "A") = true from by decide]

/-- C8.  Evaluating the code at the failing input: with a pre-cancelled
context the in-memory leaky bucket still returns a verdict `(true, nil)` and
mutates the level (its body never reads `ctx`, although the repo's own test
`TestLeakyBucketLimiter_ContextCancellation` demands `context.Canceled`),
and the in-memory token bucket applies the refill mutation (tokens and
`lastRefill`) before its cancellation check returns the error. -/
theorem cancelledContext_still_mutates :
    (lbAllow 1 1 true "u1" (LBState.init 0) 0).1 = Except.ok true ∧
    (lbAllow 1 1 true "u1" (LBState.init 0) 0).2 = (⟨1, 0⟩ : LBState) ∧
    (tbAllow 1 2 true ⟨0, 0⟩ 2000000000).1 = Except.error () ∧
    (tbAllow 1 2 true ⟨0, 0⟩ 2000000000).2 = (⟨2, 2000000000⟩ : TBState) := by
  refine ⟨?_, ?_, ?_, ?_⟩ <;>
    norm_num [lbAllow, tbAllow, LBState.init, Int.fdiv]

/-- Counterexample to C3 as stated: the in-memory token bucket does NOT set
`last_refill := now` on every call (with `rate 1`, half a second after
`lastRefill = 0` the floored refill is 0 and `lastRefill` stays 0), and its
integer token arithmetic diverges from the claim's real-valued arithmetic:
from an empty bucket (rate 1, capacity 2), calls at 1.5 s and 2.0 s give
`[true, false]` in the code but `[true, true]` under the claim's fractional
refill (the half token left at 1.5 s would refill to a full token by 2 s). -/
theorem tokenBucket_fractional_refill_counterexample :
    (tbAllow 1 2 false ⟨0, 0⟩ 500000000).2.lastRefill = 0 ∧
    (0 : Int) ≠ 500000000 ∧
    tbRunVerdicts 1 2 ⟨0, 0⟩ [1500000000, 2000000000] = [true, false] ∧
    tbSpecRunVerdicts 1 2 ⟨0, 0⟩ [1500000000, 2000000000] = [true, true] := by
  refine ⟨by decide, by decide, by decide, ?_⟩
  norm_num [tbSpecRunVerdicts, tbSpecAllow, min_def, max_def]

/-- C3 (amended).  Token Bucket: tokens are integer-valued.  The in-memory
variant computes `added = ⌊Δ·rate⌋` and, only when `added > 0`, sets
`tokens := min(capacity, tokens + added)` and `last_refill := now` (when
the floored refill is zero neither field changes); the verdict is `Allowed`
(consuming one token) iff the post-refill token count is at least 1.  The
Redis script refills by `⌊Δms·rate/1000⌋` but does set `last_refill := now`
and persists the state on every call, in both verdict cases, allowing iff
`tokens ≥ requested`. -/
theorem tokenBucket_integer_refill (rate capacity : Int) (s : TBState)
    (now : Int) :
    ((tbAllow rate capacity false s now).1 = Except.ok true ↔
        1 ≤ (if 0 < Int.fdiv ((now - s.lastRefill) * rate) 1000000000
             then min capacity (s.tokens + Int.fdiv ((now - s.lastRefill) * rate) 1000000000)
             else s.tokens)) ∧
    (Int.fdiv ((now - s.lastRefill) * rate) 1000000000 ≤ 0 →
        (tbAllow rate capacity false s now).2.lastRefill = s.lastRefill ∧
        (tbAllow rate capacity false s now).2.tokens =
          (if 1 ≤ s.tokens then s.tokens - 1 else s.tokens)) ∧
    (0 < Int.fdiv ((now - s.lastRefill) * rate) 1000000000 →
        (tbAllow rate capacity false s now).2.lastRefill = now) ∧
    (∀ st : TBState, ∀ requested : Int,
        (tbRedisScript capacity rate requested (some st) now).2.1.lastRefill = now ∧
        ((tbRedisScript capacity rate requested (some st) now).1.1 = true ↔
          requested ≤ min capacity (st.tokens + Int.fdiv ((now - st.lastRefill) * rate) 1000))) := by
  refine ⟨?_, ?_, ?_, ?_⟩
  · simp only [tbAllow]
    by_cases hd : 0 < Int.fdiv ((now - s.lastRefill) * rate) 1000000000
    · by_cases hc : 0 < min capacity (s.tokens + Int.fdiv ((now - s.lastRefill) * rate) 1000000000) <;>
        simp [hd, hc] <;> omega
    · by_cases hc : 0 < s.tokens <;> simp [hd, hc] <;> omega
  · intro hle
    have hd : ¬ 0 < Int.fdiv ((now - s.lastRefill) * rate) 1000000000 := by omega
    simp only [tbAllow]
    by_cases hc : 0 < s.tokens <;> simp [hd, hc] <;> omega
  · intro hd
    simp only [tbAllow]
    by_cases hc : 0 < min capacity (s.tokens + Int.fdiv ((now - s.lastRefill) * rate) 1000000000) <;>
      simp [hd, hc]
  · intro st requested
    constructor
    · simp only [tbRedisScript]
      split <;> rfl
    · simp only [tbRedisScript]
      split
      next hb => simp [hb]
      next hb => simp [hb]

/-- Witness for C3 (amended) at concrete inputs: with rate 1 and capacity 2,
two seconds after `lastRefill = 0` the floored refill is positive and
`lastRefill` moves to `now`. -/
theorem tokenBucket_integer_refill_witness :
    (tbAllow 1 2 false ⟨0, 0⟩ 2000000000).2.lastRefill = 2000000000 :=
  (tokenBucket_integer_refill 1 2 ⟨0, 0⟩ 2000000000).2.2.1 (by decide)

theorem tbRedisStep_no_refill (capacity rate : Int) (st : TBState) (t : Int)
    (hr : 0 ≤ rate) (h0 : 0 ≤ t - st.lastRefill)
    (h1 : (t - st.lastRefill) * rate < 1000) :
    (tbRedisScript capacity rate 1 (some st) t).2.1.tokens ≤ st.tokens ∧
    (tbRedisScript capacity rate 1 (some st) t).2.1.lastRefill = t := by
  have hf : Int.fdiv ((t - st.lastRefill) * rate) 1000 = 0 := by
    rw [Int.fdiv_eq_ediv _ (by norm_num)]
    exact Int.ediv_eq_zero_of_lt (mul_nonneg h0 hr) h1
  have hm : min capacity st.tokens ≤ st.tokens := min_le_right _ _
  simp only [tbRedisScript, hf, add_zero]
  split
  next hb => exact ⟨by dsimp only; omega, rfl⟩
  next hb => exact ⟨by dsimp only; omega, rfl⟩

theorem tbRedisRun_no_refill (capacity rate : Int) (s : TBState)
    (ts : List Int) (hr : 0 ≤ rate) (h : closelySpaced rate s.lastRefill ts) :
    (tbRedisRun capacity rate 1 s ts).tokens ≤ s.tokens := by
  induction ts generalizing s with
  | nil => exact le_rfl
  | cons t ts ih =>
    obtain ⟨hg0, hg1, hrest⟩ := h
    have hstep := tbRedisStep_no_refill capacity rate s t hr hg0 hg1
    have htail := ih ((tbRedisScript capacity rate 1 (some s) t).2.1)
      (by rw [hstep.2]; exact hrest)
    calc (tbRedisRun capacity rate 1 s (t :: ts)).tokens
        = (tbRedisRun capacity rate 1 ((tbRedisScript capacity rate 1 (some s) t).2.1) ts).tokens := rfl
      _ ≤ (tbRedisScript capacity rate 1 (some s) t).2.1.tokens := htail
      _ ≤ s.tokens := hstep.1

/-- C10.  In the Redis token-bucket script, `last_refill_time` is set to
`now` on every call (missing key or not, allowed or denied), even when the
floored refill `⌊Δms·rate/1000⌋` is zero; consequently, along any call
sequence whose consecutive gaps each satisfy `gap · rate < 1000` (calls
spaced less than `1/rate` seconds apart), no tokens are ever added: the
stored token count never exceeds its starting value, no matter the total
elapsed time. -/
theorem tbRedis_lastRefill_always_now (capacity rate : Int) (s : TBState)
    (ts : List Int) (hr : 0 ≤ rate) (h : closelySpaced rate s.lastRefill ts) :
    (∀ st : Option TBState, ∀ now : Int,
        (tbRedisScript capacity rate 1 st now).2.1.lastRefill = now) ∧
    (tbRedisRun capacity rate 1 s ts).tokens ≤ s.tokens := by
  constructor
  · intro st now
    cases st <;> simp only [tbRedisScript] <;> split <;> rfl
  · exact tbRedisRun_no_refill capacity rate s ts hr h

/-- Witness for C10: rate 2/s, calls every 400 ms for 1.2 s never refill a
bucket that started with 5 tokens. -/
theorem tbRedis_lastRefill_always_now_witness :
    (tbRedisRun 10 2 1 ⟨5, 0⟩ [400, 800, 1200]).tokens ≤ 5 :=
  (tbRedis_lastRefill_always_now 10 2 ⟨5, 0⟩ [400, 800, 1200] (by norm_num)
    (by norm_num [closelySpaced])).2

/-- Counterexample to C4 as stated: with window 1000, limit 2, state
`(pc, cc, cws) = (0, 2, 0)` and `now = 0`, the claim's formula gives
`estimate = cc + wPrev·pc = 2` and `estimate + 1 ≤ 2` is false (deny), but
the code weighs the current count too (`wCurr = 0` at the window start), so
`total = 0 < 2` and the request is ALLOWED. -/
theorem slidingWindow_unweighted_current_counterexample :
    (swAllow 1000 2 false ⟨0, 2, 0⟩ 0).1 = Except.ok true ∧
    swClaimAllow 1000 2 ⟨0, 2, 0⟩ 0 = false := by
  constructor <;> norm_num [swAllow, swClaimAllow, min_def, max_def]

/-- C4 (amended).  Sliding Window Counter, within the current window (no
shift pending): the estimate weighs BOTH counts,
`total = wCurr·cc + (1 − wCurr)·pc` with `wCurr = (now − cws)/window`
(the Redis script floors the elapsed time at 0 and caps `wCurr` at 1), and
the verdict is `Allowed` iff `total < limit`.  The in-memory variant
increments `cc` only on allow; the Redis script increments `cc` BEFORE
computing the weights and persists the updated state (with `PEXPIRE
3·window`) only on allow, leaving the stored state untouched on deny. -/
theorem slidingWindow_weighted_both_counts (window limit : Int) (s : SWState)
    (now : Int) (hW : 0 < window) (h0 : s.cws ≤ now)
    (h1 : now - s.cws < window) :
    ((swAllow window limit false s now).1 = Except.ok true ↔
        ((now : ℚ) - (s.cws : ℚ)) / (window : ℚ) * (s.cc : ℚ) +
          (1 - ((now : ℚ) - (s.cws : ℚ)) / (window : ℚ)) * (s.pc : ℚ) < (limit : ℚ)) ∧
    ((swAllow window limit false s now).1 = Except.ok true →
        (swAllow window limit false s now).2 = ⟨s.pc, s.cc + 1, s.cws⟩) ∧
    ((swAllow window limit false s now).1 = Except.ok false →
        (swAllow window limit false s now).2 = s) ∧
    (s.cws ≠ 0 →
        ((swRedisScript window limit s now).1 = true ↔
          min 1 (((now : ℚ) - (s.cws : ℚ)) / (window : ℚ)) * ((s.cc : ℚ) + 1) +
            (1 - min 1 (((now : ℚ) - (s.cws : ℚ)) / (window : ℚ))) * (s.pc : ℚ) < (limit : ℚ)) ∧
        ((swRedisScript window limit s now).1 = false →
          (swRedisScript window limit s now).2 = none) ∧
        ((swRedisScript window limit s now).1 = true →
          (swRedisScript window limit s now).2 = some (⟨s.pc, s.cc + 1, s.cws⟩, 3 * window))) := by
  have hshift : ¬ window ≤ now - s.cws := by omega
  refine ⟨?_, ?_, ?_, ?_⟩
  · by_cases hb : ((now : ℚ) - (s.cws : ℚ)) / (window : ℚ) * (s.cc : ℚ) +
        (1 - ((now : ℚ) - (s.cws : ℚ)) / (window : ℚ)) * (s.pc : ℚ) < (limit : ℚ) <;>
      simp [swAllow, hshift, hb]
  · by_cases hb : ((now : ℚ) - (s.cws : ℚ)) / (window : ℚ) * (s.cc : ℚ) +
        (1 - ((now : ℚ) - (s.cws : ℚ)) / (window : ℚ)) * (s.pc : ℚ) < (limit : ℚ) <;>
      simp [swAllow, hshift, hb]
  · by_cases hb : ((now : ℚ) - (s.cws : ℚ)) / (window : ℚ) * (s.cc : ℚ) +
        (1 - ((now : ℚ) - (s.cws : ℚ)) / (window : ℚ)) * (s.pc : ℚ) < (limit : ℚ) <;>
      simp [swAllow, hshift, hb]
  · intro hcws
    have hout : ¬ (s.cws = 0 ∨ 2 * window ≤ now - s.cws) := by
      push_neg
      exact ⟨hcws, by omega⟩
    have htsw : ¬ (now - s.cws < 0) := by omega
    refine ⟨?_, ?_, ?_⟩
    · by_cases hb : min 1 (((now : ℚ) - (s.cws : ℚ)) / (window : ℚ)) * ((s.cc : ℚ) + 1) +
          (1 - min 1 (((now : ℚ) - (s.cws : ℚ)) / (window : ℚ))) * (s.pc : ℚ) < (limit : ℚ) <;>
        simp [swRedisScript, hout, hshift, htsw, hW, hb]
    · by_cases hb : min 1 (((now : ℚ) - (s.cws : ℚ)) / (window : ℚ)) * ((s.cc : ℚ) + 1) +
          (1 - min 1 (((now : ℚ) - (s.cws : ℚ)) / (window : ℚ))) * (s.pc : ℚ) < (limit : ℚ) <;>
        simp [swRedisScript, hout, hshift, htsw, hW, hb]
    · by_cases hb : min 1 (((now : ℚ) - (s.cws : ℚ)) / (window : ℚ)) * ((s.cc : ℚ) + 1) +
          (1 - min 1 (((now : ℚ) - (s.cws : ℚ)) / (window : ℚ))) * (s.pc : ℚ) < (limit : ℚ) <;>
        simp [swRedisScript, hout, hshift, htsw, hW, hb]

/-- Witness for C4 (amended): window 1000, limit 2, state `(0, 2, 0)` at
`now = 0` — allowed by the code because the current count enters with
weight 0. -/
theorem slidingWindow_weighted_both_counts_witness :
    (swAllow 1000 2 false ⟨0, 2, 0⟩ 0).1 = Except.ok true := by
  refine ((slidingWindow_weighted_both_counts 1000 2 ⟨0, 2, 0⟩ 0
    (by norm_num) (by norm_num) (by norm_num)).1).mpr ?_
  norm_num

theorem insertSorted_length (x : Int) (l : List Int) :
    (insertSorted x l).length = l.length + 1 := by
  induction l with
  | nil => rfl
  | cons y ys ih => by_cases h : x ≤ y <;> simp [insertSorted, h, ih]

theorem insSort_length (l : List Int) : (insSort l).length = l.length := by
  induction l with
  | nil => rfl
  | cons x xs ih => simp [insSort, insertSorted_length, ih]

/-- Counterexample to C6 as stated: when the post-decision `Set` of the
updated timestamp list fails, the memcached sliding-window `Allow` does not
surface the error — it logs and returns `(true, nil)`: a failure to persist
the updated state after the limit check DOES yield `(true, nil)`. -/
theorem swcMemcache_allows_on_set_failure :
    swcMemAllow 1000 3 (some (some [])) false true 5000 =
      (Except.ok true, none, [MOp.get, MOp.set]) := rfl

/-- C6 (amended).  Error propagation is fail-closed on every modelled path
EXCEPT the memcached sliding-window save: a failed `Get`, an undecodable
stored value, and (in the memcached token bucket) a failed `Set` after
either verdict all surface the error and no verdict; but when the memcached
sliding-window limiter's `Set` fails after an allow decision, `Allow`
returns `(true, nil)` instead of the error. -/
theorem memcache_error_propagation :
    (∀ window limit : Int, ∀ stored : Option (Option (List Int)),
      ∀ setErr : Bool, ∀ now : Int,
        (swcMemAllow window limit stored true setErr now).1 =
          Except.error SWCErr.getFailed) ∧
    (∀ window limit : Int, ∀ setErr : Bool, ∀ now : Int,
        (swcMemAllow window limit (some none) false setErr now).1 =
          Except.error SWCErr.unmarshalFailed) ∧
    (∀ rate capacity : Int, ∀ stored : Option (Option TBState),
      ∀ setErr : Bool, ∀ now : Int,
        (tbMemAllow rate capacity stored true setErr now).1 =
          Except.error TBMErr.getFailed) ∧
    (∀ rate capacity : Int, ∀ setErr : Bool, ∀ now : Int,
        (tbMemAllow rate capacity (some none) false setErr now).1 =
          Except.error TBMErr.unmarshalFailed) ∧
    (∀ rate capacity : Int, ∀ st : Option (Option TBState), ∀ now : Int,
        st ≠ some none →
          (tbMemAllow rate capacity st false true now).1 =
            Except.error TBMErr.setFailed) ∧
    (∀ window limit : Int, ∀ ts : List Int, ∀ now : Int,
        (insSort (ts.filter (fun t => now - window ≤ t))).length < limit →
          (swcMemAllow window limit (some (some ts)) false true now).1 =
            Except.ok true) := by
  refine ⟨?_, ?_, ?_, ?_, ?_, ?_⟩
  · intro window limit stored setErr now
    simp [swcMemAllow]
  · intro window limit setErr now
    simp [swcMemAllow]
  · intro rate capacity stored setErr now
    simp [tbMemAllow]
  · intro rate capacity setErr now
    simp [tbMemAllow]
  · intro rate capacity st now hne
    match st with
    | none => simp only [tbMemAllow]; split <;> rfl
    | some none => exact absurd rfl hne
    | some (some s0) => simp only [tbMemAllow]; split <;> rfl
  · intro window limit ts now hlen
    simp only [swcMemAllow, Option.getD_some]
    rw [if_pos hlen]

/-- Witness for C6 (amended): a failed `Get` surfaces the error, while a
failed `Set` after an allow decision yields `(true, nil)`. -/
theorem memcache_error_propagation_witness :
    (swcMemAllow 1000 3 (some (some [42])) true false 5000).1 =
      Except.error SWCErr.getFailed ∧
    (swcMemAllow 1000 3 (some (some [4500])) false true 5000).1 =
      Except.ok true :=
  ⟨memcache_error_propagation.1 1000 3 (some (some [42])) false 5000,
   memcache_error_propagation.2.2.2.2.2 1000 3 [4500] 5000 (by decide)⟩

/-- Counterexample to C7 as stated: the memcached sliding-window verdict is
a plain `GET` followed by a plain `SET` — no compare-and-swap ever appears
in the operation trace, there is no retry, and a persistently failing write
(the situation C7 says must end in `BackendContention` after 3 retries)
still returns `(true, nil)` after a single attempt. -/
theorem swcMemcache_no_cas_counterexample :
    swcMemAllow 2000 2 (some (some [100])) false true 2500 =
      (Except.ok true, none, [MOp.get, MOp.set]) ∧
    MOp.cas ∉ [MOp.get, MOp.set] := by
  exact ⟨rfl, by decide⟩

/-- C7 (amended).  Memcached sliding-window log variant: each verdict does a
plain `GET` (no CAS token), drops stored timestamps older than
`now − window` (keeping those `≥ now − window`) and sorts them, decides by
the count of remaining timestamps (allow iff `count < limit`), appends `now`
on allow and writes back with a plain unconditional `Set` carrying expiry
`max(1, ⌊window in seconds⌋)`; on deny nothing is written.  There is no
compare-and-swap, no retry loop and no `BackendContention` error kind. -/
theorem swcMemcache_get_set_protocol (window limit : Int) (ts : List Int)
    (now : Int) (setErr : Bool) :
    ((swcMemAllow window limit (some (some ts)) false setErr now).1 =
        Except.ok true ↔
      (insSort (ts.filter (fun t => now - window ≤ t))).length < limit) ∧
    ((insSort (ts.filter (fun t => now - window ≤ t))).length < limit →
        (swcMemAllow window limit (some (some ts)) false setErr now).2.2 =
          [MOp.get, MOp.set] ∧
        (setErr = false →
          (swcMemAllow window limit (some (some ts)) false setErr now).2.1 =
            some (insSort (ts.filter (fun t => now - window ≤ t)) ++ [now],
              if Int.tdiv window 1000 < 1 then 1 else Int.tdiv window 1000))) ∧
    (¬ (insSort (ts.filter (fun t => now - window ≤ t))).length < limit →
        (swcMemAllow window limit (some (some ts)) false setErr now).1 =
          Except.ok false ∧
        (swcMemAllow window limit (some (some ts)) false setErr now).2.1 = none ∧
        (swcMemAllow window limit (some (some ts)) false setErr now).2.2 =
          [MOp.get]) ∧
    MOp.cas ∉ (swcMemAllow window limit (some (some ts)) false setErr now).2.2 ∧
    (insSort (ts.filter (fun t => now - window ≤ t))).length =
      (ts.filter (fun t => now - window ≤ t)).length := by
  refine ⟨?_, ?_, ?_, ?_, insSort_length _⟩
  · simp only [swcMemAllow, Option.getD_some]
    by_cases hlen : ((insSort (ts.filter (fun t => now - window ≤ t))).length : Int) < limit
    · rw [if_pos hlen]
      refine iff_of_true ?_ hlen
      cases setErr <;> rfl
    · rw [if_neg hlen]
      exact iff_of_false (by simp) hlen
  · intro hlen
    constructor
    · simp only [swcMemAllow, Option.getD_some]
      rw [if_pos hlen]
      cases setErr <;> rfl
    · intro hse
      subst hse
      simp only [swcMemAllow, Option.getD_some]
      rw [if_pos hlen]
  · intro hlen
    simp only [swcMemAllow, Option.getD_some]
    rw [if_neg hlen]
    exact ⟨rfl, rfl, rfl⟩
  · simp only [swcMemAllow, Option.getD_some]
    by_cases hlen : ((insSort (ts.filter (fun t => now - window ≤ t))).length : Int) < limit
    · rw [if_pos hlen]
      cases setErr <;> exact (by decide : MOp.cas ∉ [MOp.get, MOp.set])
    · rw [if_neg hlen]
      exact (by decide : MOp.cas ∉ [MOp.get])

/-- Witness for C7 (amended): window 2 s, limit 2, one stale stored
timestamp; the pruned count is 0, the request is allowed and written back
with a plain `Set` and expiry 2 s. -/
theorem swcMemcache_get_set_protocol_witness :
    (swcMemAllow 2000 2 (some (some [100])) false false 2500).2.1 =
      some ([2500], 2) ∧
    (swcMemAllow 2000 2 (some (some [100])) false false 2500).2.2 =
      [MOp.get, MOp.set] := by
  have h := swcMemcache_get_set_protocol 2000 2 [100] 2500 false
  have hlen : ((insSort (([100] : List Int).filter (fun t => 2500 - 2000 ≤ t))).length : Int) < 2 := by
    decide
  refine ⟨?_, (h.2.1 hlen).1⟩
  have hw := (h.2.1 hlen).2 rfl
  simpa using hw

/-- Counterexample to C9 as stated: the Redis leaky-bucket script persists
the updated per-identifier state with a plain `SET` and never sets any
expiry — this write (allowed verdict, level 1) carries no TTL at all, so
idle identifiers' leaky-bucket state never expires. -/
theorem leakyBucketRedis_write_without_expiry :
    (lbRedisScript 3 2 (some ⟨1, 0⟩) 1000).2.2 = none ∧
    (lbRedisScript 3 2 (some ⟨1, 0⟩) 1000).1 = true := by
  constructor <;> norm_num [lbRedisScript, max_def]

/-- C9 (amended).  Remote writes and their expiries: the sliding-window
Redis script persists with `PEXPIRE 3·window` (k = 3); the fixed-window
Redis script sets `EXPIRE expiry` on the first increment of a window; the
token-bucket Redis script sets `EXPIRE 2·⌈capacity/rate⌉` on every call;
the memcached sliding-window write carries `max(1, ⌊window s⌋)` seconds —
but the Redis leaky-bucket script writes with no expiry at all, and the
memcached token-bucket write carries `Expiration` 0 (never expires). -/
theorem remote_state_expiry :
    (∀ window limit : Int, ∀ s : SWState, ∀ now : Int, ∀ st : SWState,
      ∀ ttl : Int,
        (swRedisScript window limit s now).2 = some (st, ttl) →
          ttl = 3 * window) ∧
    (∀ window limit expiry : Int, ∀ hash : Int → Int, ∀ now : Int,
        hash ((Int.fdiv now window) * window) = 0 →
          (fcRedisScript window limit expiry hash now).2.2 = some expiry) ∧
    (∀ capacity rate requested : Int, ∀ st : Option TBState, ∀ now : Int,
        (tbRedisScript capacity rate requested st now).2.2 =
          Int.ceil ((capacity : ℚ) / (rate : ℚ)) * 2) ∧
    (∀ capacity rate : Int, ∀ st : Option LBState, ∀ now : Int,
        (lbRedisScript capacity rate st now).2.2 = none) ∧
    (∀ rate capacity : Int, ∀ stored : Option (Option TBState),
      ∀ getErr setErr : Bool, ∀ now : Int, ∀ st : TBState, ∀ e : Int,
        (tbMemAllow rate capacity stored getErr setErr now).2 = some (st, e) →
          e = 0) ∧
    (∀ window limit : Int, ∀ stored : Option (Option (List Int)),
      ∀ getErr setErr : Bool, ∀ now : Int, ∀ l : List Int, ∀ e : Int,
        (swcMemAllow window limit stored getErr setErr now).2.1 = some (l, e) →
          e = if Int.tdiv window 1000 < 1 then 1 else Int.tdiv window 1000) := by
  refine ⟨?_, ?_, ?_, ?_, ?_, ?_⟩
  · intro window limit s now st ttl h
    simp only [swRedisScript] at h
    split_ifs at h <;> simp at h <;> omega
  · intro window limit expiry hash now h
    simp [fcRedisScript, h]
  · intro capacity rate requested st now
    cases st <;> simp only [tbRedisScript] <;> split <;> rfl
  · intro capacity rate st now
    cases st <;> simp only [lbRedisScript] <;> split <;> rfl
  · intro rate capacity stored getErr setErr now st e h
    cases getErr
    · match stored with
      | none =>
        simp only [tbMemAllow] at h
        split at h <;> split at h <;> simp at h <;> exact h.2.symm
      | some none => simp [tbMemAllow] at h
      | some (some s0) =>
        simp only [tbMemAllow] at h
        split at h <;> split at h <;> simp at h <;> exact h.2.symm
    · simp [tbMemAllow] at h
  · intro window limit stored getErr setErr now l e h
    cases getErr
    · match stored with
      | none =>
        simp only [swcMemAllow] at h
        split at h <;> [skip; simp at h]
        split at h <;> simp at h
        exact h.2.symm
      | some none => simp [swcMemAllow] at h
      | some (some ts) =>
        simp only [swcMemAllow] at h
        split at h <;> [skip; simp at h]
        split at h <;> simp at h
        exact h.2.symm
    · simp [swcMemAllow] at h

/-- Witness for C9 (amended): concrete evaluations — sliding-window Redis
write carries 3000 ms for a 1000 ms window, while the leaky-bucket Redis
write carries no expiry. -/
theorem remote_state_expiry_witness :
    (3000 : Int) = 3 * 1000 ∧
      (lbRedisScript 3 2 (some ⟨1, 0⟩) 1000).2.2 = none :=
  ⟨remote_state_expiry.1 1000 5 ⟨0, 0, 0⟩ 500 ⟨0, 1, 0⟩ 3000
      (by norm_num [swRedisScript, min_def]),
   remote_state_expiry.2.2.2.1 3 2 (some ⟨1, 0⟩) 1000⟩

end RateLimiter
